import Mathlib

/-!
# Verification of the outlier-scout graph subsystem

Shallow embedding of the data model, filter pipeline, edge derivations,
deterministic concentric-tier layout, selection toggling and follower
formatting of the outlier-scout repository, together with proofs of the
frozen claims about them.

Conventions of the embedding:
* JS numbers that are integers in the data model (`followers_count`,
  `hub_count`) become `Nat` (or `Int`/`ℚ` where a computation subtracts or
  divides).
* JS `Set`/`Map` built by insertion become `List`-based lookups with
  last-write-wins semantics, or `List.toFinset` where only membership and
  cardinality matter.
* Edge endpoints, which in the source are `string | GraphNode` unions that
  the filter code normalises back to id strings, are modelled as plain id
  strings.
-/

namespace OutlierScout

/-- Node categories, from `src/lib/graph-types.ts` (`NodeType`). -/
inductive NodeType where
  | center
  | hub
  | recommendation
deriving DecidableEq, Repr

/-- Edge categories, from `src/lib/graph-types.ts` (`EdgeType`). -/
inductive EdgeType where
  | ethan_follows
  | hub_follows
deriving DecidableEq, Repr

/-- Structure `GraphNode` from `src/lib/graph-types.ts`.  The D3 simulation fields
(`x`, `y`, `fx`, ...) are mutable float scratch state owned by the force
simulation and are not part of the data model proper; they are omitted. -/
structure GraphNode where
  id : String
  name : String
  type : NodeType
  followers_count : Nat
  hub_count : Nat
  description : Option String := none
deriving DecidableEq, Repr

/-- Structure `GraphEdge` from `src/lib/graph-types.ts`, with endpoints normalised to
id strings (the source stores `string | GraphNode` and extracts `.id`
before every comparison). -/
structure GraphEdge where
  source : String
  target : String
  type : EdgeType
deriving DecidableEq, Repr

/-- Structure `Recommendation` from `src/lib/graph-types.ts`.  `hub_pct` is a float
used only for display and is not consumed by any claim; it is omitted. -/
structure Recommendation where
  id : String
  username : String
  name : String
  description : String
  followers_count : Nat
  following_count : Nat
  hub_count : Nat
  followed_by : List String
deriving DecidableEq, Repr

/-! ## Click-to-select toggling

`handleClick` in `src/components/network-graph.tsx` (and its twins in the
bipartite, similarity and hub-cluster views):
`onSelectNode(d.id === selectedId ? null : d.id)`. -/

/-- The new selection produced by clicking node `nodeId` while
`selectedId` is the current selection (`none` = no selection). -/
def clickSelect (selectedId : Option String) (nodeId : String) : Option String :=
  if selectedId = some nodeId then none else some nodeId

/-! ## Recommendation node radii

`recNodeRadius` in the similarity view (`src/unnamed/part_002`):
`Math.max(8, Math.min(20, 4 + hubCount * 0.35))`;
`recRadius` in the bipartite view (`src/unnamed/part_001`):
`Math.max(6, Math.min(16, 3 + hubCount * 0.25))`.
`hubCount` is an integer; the float arithmetic is modelled over `ℚ`. -/

/-- Function `recNodeRadius` from `src/unnamed/part_002`. -/
def recNodeRadius (hubCount : ℤ) : ℚ :=
  max 8 (min 20 (4 + (hubCount : ℚ) * (35 / 100)))

/-- Function `recRadius` from `src/unnamed/part_001`. -/
def recRadius (hubCount : ℤ) : ℚ :=
  max 6 (min 16 (3 + (hubCount : ℚ) * (25 / 100)))

/-! ## Follower-count formatting

Both `formatFollowers` variants divide by 1e6 / 1e3 and round with
`Number.prototype.toFixed`.  Over integer inputs the quotient is rounded
half-up (ties exactly at a half are exactly representable as doubles for
the divisors used here, and all other values are far enough from the
rounding boundary that double rounding error cannot flip the digit). -/

/-- Round half up, computing `⌊num / den + 1/2⌋`, as `toFixed` does on the
(positive) values occurring here. -/
def roundHalfUp (num den : Nat) : Nat :=
  (2 * num + den) / (2 * den)

/-- Render `tenths/10` with exactly one decimal digit, as `toFixed(1)`. -/
def oneDecimalString (tenths : Nat) : String :=
  toString (tenths / 10) ++ "." ++ toString (tenths % 10)

/-- Function `formatFollowers` from `src/unnamed/part_002` (similarity view; the
hub-cluster view and the list view carry the identical function):
millions with one decimal + "M", thousands with ZERO decimals + "K"
(`toFixed(0)`), else the literal integer. -/
def formatFollowersSim (count : Nat) : String :=
  if 1000000 ≤ count then oneDecimalString (roundHalfUp count 100000) ++ "M"
  else if 1000 ≤ count then toString (roundHalfUp count 1000) ++ "K"
  else toString count

/-- Function `formatFollowers` from `src/unnamed/part_001` (bipartite view):
millions with one decimal + "M", thousands with ONE decimal + "K"
(`toFixed(1)`), else the literal integer. -/
def formatFollowersBip (count : Nat) : String :=
  if 1000000 ≤ count then oneDecimalString (roundHalfUp count 100000) ++ "M"
  else if 1000 ≤ count then oneDecimalString (roundHalfUp count 100) ++ "K"
  else toString count

/-- Modelled from the spec: the formatting that claim C9 describes —
"n divided by 1,000,000 with one decimal followed by M when n ≥ 1,000,000,
n divided by 1,000 with one decimal followed by K when 1,000 ≤ n <
1,000,000, and the literal integer otherwise". -/
def claimFormatFollowers (count : Nat) : String :=
  if 1000000 ≤ count then oneDecimalString (roundHalfUp count 100000) ++ "M"
  else if 1000 ≤ count then oneDecimalString (roundHalfUp count 100) ++ "K"
  else toString count

/-! ## Filter pipeline

`NetworkGraph` (`src/components/network-graph.tsx`, lines 54–74) computes
the surviving node-id set, the surviving node list and the surviving edge
list; `HubClustersGraph` (`src/components/graphs/hub-clusters.tsx`, lines
105–114) selects hub nodes and applies the mainstream filter to them. -/

/-- The surviving node identity set of `NetworkGraph`: all ids, or — when
`filterMainstream` — ids of nodes that are not mainstream recommendations. -/
def filteredNodeIds (nodes : List GraphNode) (filterMainstream : Bool) : List String :=
  if filterMainstream then
    (nodes.filter fun n =>
      decide (n.type ≠ NodeType.recommendation) || decide (n.followers_count < 1000000)).map
      (fun n => n.id)
  else nodes.map (fun n => n.id)

/-- The surviving node list of `NetworkGraph`: nodes whose id is in the
surviving identity set. -/
def survivingNodes (nodes : List GraphNode) (filterMainstream : Bool) : List GraphNode :=
  nodes.filter fun n => decide (n.id ∈ filteredNodeIds nodes filterMainstream)

/-- The surviving edge list of `NetworkGraph`: edges with both endpoints in
the surviving identity set. -/
def survivingEdges (nodes : List GraphNode) (edges : List GraphEdge)
    (filterMainstream : Bool) : List GraphEdge :=
  edges.filter fun e =>
    decide (e.source ∈ filteredNodeIds nodes filterMainstream) &&
      decide (e.target ∈ filteredNodeIds nodes filterMainstream)

/-- The node list of `HubClustersGraph`: hub-type nodes only, additionally
dropping hubs with ≥ 1,000,000 followers when `filterMainstream` is set. -/
def hubClustersNodes (nodes : List GraphNode) (filterMainstream : Bool) : List GraphNode :=
  let hubNodes := nodes.filter fun n => decide (n.type = NodeType.hub)
  if filterMainstream then hubNodes.filter (fun n => decide (n.followers_count < 1000000))
  else hubNodes

/-- The filtered recommendation list used by the similarity, bipartite and
concentric views: drop recommendations with ≥ 1,000,000 followers when
`filterMainstream` is set. -/
def filteredRecs (recs : List Recommendation) (filterMainstream : Bool) : List Recommendation :=
  if filterMainstream then recs.filter (fun r => decide (r.followers_count < 1000000))
  else recs

/-! ## Ordered pairs

Both pairwise derivations run the double loop
`for i ...; for j = i+1 ...` over a list; `orderedPairs` is that loop. -/

/-- All pairs `(l[i], l[j])` with `i < j`, in loop order. -/
def orderedPairs {α : Type} : List α → List (α × α)
  | [] => []
  | x :: xs => (xs.map fun y => (x, y)) ++ orderedPairs xs

/-- The unordered-pair key used by the hub co-follow map:
`[a, b].sort()` in the source (then joined with `"|"`; the join is
injective because hub handles contain no `"|"`, so the key is modelled as
the sorted pair itself). -/
def pairKey (a b : String) : String × String :=
  if a ≤ b then (a, b) else (b, a)

/-! ## Similarity edge derivation

`RecSimilarityGraph` (`src/unnamed/part_002`, lines 99–127): build a
`Map` from username to the `Set` of its `followed_by`, then for every
`i < j` count the intersection (iterating the smaller set against the
larger — which does not change the count and is modelled directly as
finset intersection) and push an edge when the count is ≥ 5. -/

/-- A derived similarity edge (`SimEdge` in `src/unnamed/part_002`). -/
structure SimEdge where
  source : String
  target : String
  weight : Nat
deriving DecidableEq, Repr

/-- Map lookup `followedByMap.get u`: the `followed_by` set of the last recommendation
with username `u` inserted into the map (`Map.set` overwrites), as a
finset. -/
def lookupFollowedBy (recs : List Recommendation) (u : String) : Finset String :=
  match recs.reverse.find? (fun r => decide (r.username = u)) with
  | some r => r.followed_by.toFinset
  | none => ∅

/-- The shared-follower count of two usernames, via the map. -/
def intersectSize (recs : List Recommendation) (a b : String) : Nat :=
  (lookupFollowedBy recs a ∩ lookupFollowedBy recs b).card

/-- The loop body: the edge produced by one ordered pair, if the shared
count (`shared` in the source) reaches the threshold 5. -/
def simEdgeOfPair (recs : List Recommendation) (p : Recommendation × Recommendation) :
    Option SimEdge :=
  if 5 ≤ intersectSize recs p.1.username p.2.username then
    some ⟨p.1.username, p.2.username, intersectSize recs p.1.username p.2.username⟩
  else none

/-- The similarity edge list: one edge per ordered pair `i < j` whose
shared-follower count is ≥ 5, weighted by that count. -/
def simEdges (recs : List Recommendation) : List SimEdge :=
  (orderedPairs recs).filterMap (simEdgeOfPair recs)

/-! ## Hub co-follow derivation

`hubEdges` in `src/components/graphs/hub-clusters.tsx`, lines 62–82: for
every recommendation, every `i < j` pair of its `followed_by` array
increments a counter keyed by the sorted pair; pairs with accumulated
weight ≥ 10 become edges. -/

/-- A derived hub co-follow edge (`HubEdge` in `hub-clusters.tsx`). -/
structure HubEdge where
  source : String
  target : String
  weight : Nat
deriving DecidableEq, Repr

/-- How many `i < j` pairs of `fb` have sorted key `key`. -/
def recPairCount (fb : List String) (key : String × String) : Nat :=
  (orderedPairs fb).countP fun p => decide (pairKey p.1 p.2 = key)

/-- The accumulated weight of `key` over all recommendations. -/
def hubPairWeight (recs : List Recommendation) (key : String × String) : Nat :=
  (recs.map fun r => recPairCount r.followed_by key).sum

/-- The keys present in the accumulation map (each key once) whose weight
reached the threshold 10. -/
def hubEdgeKeys (recs : List Recommendation) : List (String × String) :=
  ((recs.flatMap fun r =>
      (orderedPairs r.followed_by).map fun p => pairKey p.1 p.2).dedup).filter
    fun k => decide (10 ≤ hubPairWeight recs k)

/-- The hub co-follow edge list. -/
def hubEdges (recs : List Recommendation) : List HubEdge :=
  (hubEdgeKeys recs).map fun k => ⟨k.1, k.2, hubPairWeight recs k⟩

/-- Structure `GraphData`, restricted to the fields the claims consume (`stats` is
display-only). -/
structure GraphData where
  nodes : List GraphNode
  edges : List GraphEdge
  recommendations : List Recommendation

/-- The hub co-follow derivation as the component computes it: the
`useMemo` depends only on `data.recommendations`, never on the
`filterMainstream` prop. -/
def hubEdgesOfView (data : GraphData) (_filterMainstream : Bool) : List HubEdge :=
  hubEdges data.recommendations

/-! ## Bipartite edges

`BipartiteGraph` (`src/unnamed/part_001`, lines 104–140): hub nodes, the
mainstream-filtered recommendations, and one edge per
(hub ∈ `followed_by`) occurrence whose hub id and rec username are both
present. -/

/-- A bipartite hub→recommendation edge. -/
structure BipEdge where
  source : String
  target : String
deriving DecidableEq, Repr

/-- The `hubIdSet` of the bipartite view: ids of the hub-type nodes. -/
def bipHubIds (nodes : List GraphNode) : List String :=
  (nodes.filter fun n => decide (n.type = NodeType.hub)).map (fun n => n.id)

/-- The bipartite edge list: for each surviving recommendation `r` and
each hub id in `r.followed_by`, an edge when the hub id and the
recommendation's username are both present. -/
def bipartiteEdges (nodes : List GraphNode) (recs : List Recommendation)
    (filterMainstream : Bool) : List BipEdge :=
  (filteredRecs recs filterMainstream).flatMap fun r =>
    (r.followed_by.filter fun h =>
        decide (h ∈ bipHubIds nodes) &&
          decide (r.username ∈
            (filteredRecs recs filterMainstream).map fun r2 => r2.username)).map
      fun h => ⟨h, r.username⟩

/-! ## Concentric-tier layout

`ConcentricRingsGraph` (`src/components/network-graph.tsx`, lines
326–357 and 398–435).  Positions are produced by closed-form arithmetic
and trigonometry; the embedding keeps the angle symbolically (in units of
π) and the radii in `ℚ`, so every placed quantity is exact and decidable.
`cx`/`cy` in the source are the fixed images
`centerX + ringRadius·cos(π·angleInPi)`, `centerY + ringRadius·sin(π·angleInPi)`
of the fields stored here, so equality of the symbolic fields is equality
of the rendered positions. -/

/-- One entry of the `RINGS` table.  `maxHub = none` models the JS
`Infinity` of ring 0.  The display-only `label` field is omitted. -/
structure Ring where
  radius : ℚ
  minHub : ℚ
  maxHub : Option ℚ
  nodeRadiusMin : ℚ
  nodeRadiusMax : ℚ
deriving DecidableEq, Repr

/-- The `RINGS` constant (`network-graph.tsx` lines 326–330). -/
def RINGS : Fin 3 → Ring
  | 0 => ⟨150, 40, none, 16, 22⟩
  | 1 => ⟨280, 30, some 40, 10, 15⟩
  | 2 => ⟨420, 0, some 30, 6, 10⟩

/-- Function `computeNodeRadius` (`network-graph.tsx` lines 350–357):
`hubRange = minHub === 0 ? 10 : maxHub - minHub`,
`hubBase = minHub === 0 ? 20 : minHub`,
`t = clamp01((hubCount - hubBase) / hubRange)`,
`radius = minR + t * (maxR - minR)`.
For ring 0 `hubRange` is `Infinity`; a finite value divided by `Infinity`
is `±0`, which the clamp sends to `0` — modelled by the `none` branch. -/
def computeNodeRadius (hubCount : ℚ) (ringIndex : Fin 3) : ℚ :=
  let ring := RINGS ringIndex
  let hubRange : Option ℚ :=
    if ring.minHub = 0 then some 10 else ring.maxHub.map (fun m => m - ring.minHub)
  let hubBase : ℚ := if ring.minHub = 0 then 20 else ring.minHub
  let t : ℚ :=
    match hubRange with
    | none => 0
    | some rng => min 1 (max 0 ((hubCount - hubBase) / rng))
  ring.nodeRadiusMin + t * (ring.nodeRadiusMax - ring.nodeRadiusMin)

/-- Tier bucketing (`network-graph.tsx` lines 407–412): the loop pushes
each recommendation into tier 0 (`hub_count ≥ 40`), tier 1
(`hub_count ≥ 30`) or tier 2, preserving list order. -/
def bucketTiers :
    List Recommendation → List Recommendation × List Recommendation × List Recommendation
  | [] => ([], [], [])
  | r :: rest =>
    let t := bucketTiers rest
    if 40 ≤ r.hub_count then (r :: t.1, t.2.1, t.2.2)
    else if 30 ≤ r.hub_count then (t.1, r :: t.2.1, t.2.2)
    else (t.1, t.2.1, r :: t.2.2)

/-- The in-tier sort (`network-graph.tsx` lines 415–417):
`tier.sort((a, b) => b.hub_count - a.hub_count)` — a stable descending
sort by `hub_count`.  A stable sort for a total preorder is unique, and
`List.insertionSort` with "`a` may precede `b` iff `b.hub_count ≤
a.hub_count`" is stable, so it is that sort. -/
def sortTier (tier : List Recommendation) : List Recommendation :=
  tier.insertionSort fun a b => b.hub_count ≤ a.hub_count

/-- The angle of node `i` among `n` nodes of a tier, in units of π
(`network-graph.tsx` lines 424–426):
`n == 1 ? -π/2 : 2π·i/n - π/2`. -/
def nodeAngleInPi (n i : Nat) : ℚ :=
  if n = 1 then -(1 / 2 : ℚ) else (2 * i) / n - 1 / 2

/-- A positioned recommendation (`PositionedRec` in the source).  The
rendered position is `cx = centerX + ringRadius·cos(π·angleInPi)`,
`cy = centerY + ringRadius·sin(π·angleInPi)`, `r` the node radius.
(The recommendation itself is field `node`; `rec` is reserved in Lean.) -/
structure PlacedRec where
  node : Recommendation
  ringIndex : Fin 3
  angleInPi : ℚ
  ringRadius : ℚ
  centerX : ℚ
  centerY : ℚ
  r : ℚ
deriving DecidableEq, Repr

/-- Place the members of one (already sorted) tier, counting the index up
from `i`; `n` is the tier size. -/
def placeSorted (k : Fin 3) (cX cY : ℚ) (n : Nat) : Nat → List Recommendation → List PlacedRec
  | _, [] => []
  | i, r :: rest =>
    { node := r
      ringIndex := k
      angleInPi := nodeAngleInPi n i
      ringRadius := (RINGS k).radius
      centerX := cX
      centerY := cY
      r := computeNodeRadius (r.hub_count : ℚ) k } :: placeSorted k cX cY n (i + 1) rest

/-- Sort one tier and place it around its ring. -/
def placeTier (k : Fin 3) (cX cY : ℚ) (tier : List Recommendation) : List PlacedRec :=
  placeSorted k cX cY (sortTier tier).length 0 (sortTier tier)

/-- The whole concentric layout (`network-graph.tsx` lines 397–435):
filter, bucket into tiers, sort each tier, place each tier.  `width` and
`height` are the viewport size; `centerX = width/2`, `centerY = height/2`. -/
def concentricLayout (recs : List Recommendation) (filterMainstream : Bool)
    (width height : ℚ) : List PlacedRec :=
  let rs := filteredRecs recs filterMainstream
  let t := bucketTiers rs
  placeTier 0 (width / 2) (height / 2) t.1 ++
    placeTier 1 (width / 2) (height / 2) t.2.1 ++
      placeTier 2 (width / 2) (height / 2) t.2.2

/-- The tier a recommendation belongs to, per the bucketing thresholds. -/
def tierIndex (hc : Nat) : Fin 3 :=
  if 40 ≤ hc then 0 else if 30 ≤ hc then 1 else 2

/-! ## Helper lemmas -/

/-- Membership in `orderedPairs` is exactly the two-element sublist
relation: `(a, b)` is produced iff `a` occurs strictly before `b`. -/
theorem mem_orderedPairs {α : Type} {a b : α} {l : List α} :
    (a, b) ∈ orderedPairs l ↔ [a, b].Sublist l := by
  induction l with
  | nil => simp [orderedPairs]
  | cons x xs ih =>
    simp only [orderedPairs, List.mem_append, List.mem_map, ih]
    constructor
    · rintro (⟨y, hy, he⟩ | h)
      · injection he with h1 h2
        subst h1; subst h2
        exact (List.singleton_sublist.mpr hy).cons₂ _
      · exact h.cons x
    · intro h
      cases h with
      | cons _ h2 => exact Or.inr h2
      | cons₂ _ h2 => exact Or.inl ⟨b, List.singleton_sublist.mp h2, rfl⟩

/-- Both components of an ordered pair are members of the list. -/
theorem mem_of_mem_orderedPairs {α : Type} {p : α × α} {l : List α}
    (h : p ∈ orderedPairs l) : p.1 ∈ l ∧ p.2 ∈ l := by
  have : [p.1, p.2].Sublist l := mem_orderedPairs.mp h
  exact ⟨this.subset (by simp), this.subset (by simp)⟩

/-- Two distinct members occur in one order or the other. -/
theorem pair_sublist_of_mem {α : Type} {a b : α} {l : List α}
    (ha : a ∈ l) (hb : b ∈ l) (hne : a ≠ b) :
    [a, b].Sublist l ∨ [b, a].Sublist l := by
  induction l with
  | nil => cases ha
  | cons x xs ih =>
    rcases List.mem_cons.mp ha with rfl | ha2
    · have hb2 : b ∈ xs := by
        rcases List.mem_cons.mp hb with rfl | h
        · exact absurd rfl hne
        · exact h
      exact Or.inl ((List.singleton_sublist.mpr hb2).cons₂ a)
    · rcases List.mem_cons.mp hb with rfl | hb2
      · exact Or.inr ((List.singleton_sublist.mpr ha2).cons₂ b)
      · exact (ih ha2 hb2).imp (List.Sublist.cons x) (List.Sublist.cons x)

/-- Symmetry: `pairKey` ignores argument order. -/
theorem pairKey_comm (a b : String) : pairKey a b = pairKey b a := by
  unfold pairKey
  rcases le_total a b with h | h
  · by_cases h2 : b ≤ a
    · simp [h, h2, le_antisymm h h2]
    · simp [h, h2]
  · by_cases h2 : a ≤ b
    · simp [h, h2, le_antisymm h2 h]
    · simp [h, h2]

/-- Injectivity: `pairKey` determines the unordered pair. -/
theorem pairKey_eq_iff {a b c d : String} :
    pairKey a b = pairKey c d ↔ (a = c ∧ b = d) ∨ (a = d ∧ b = c) := by
  constructor
  · unfold pairKey
    split_ifs <;> intro h <;>
      obtain ⟨h1, h2⟩ := Prod.mk.injEq .. ▸ h <;> subst h1 <;> subst h2 <;> simp
  · rintro (⟨rfl, rfl⟩ | ⟨rfl, rfl⟩)
    · rfl
    · exact pairKey_comm a b

/-- Over a list whose `f`-image has no duplicates, distinct loop pairs have
distinct unordered keys. -/
theorem pairwise_key_orderedPairs {α : Type} (f : α → String) :
    ∀ (l : List α), (l.map f).Nodup →
      (orderedPairs l).Pairwise
        fun p q => pairKey (f p.1) (f p.2) ≠ pairKey (f q.1) (f q.2)
  | [], _ => List.Pairwise.nil
  | x :: xs, h => by
    have hx : f x ∉ xs.map f := (List.nodup_cons.mp h).1
    have hxs : (xs.map f).Nodup := (List.nodup_cons.mp h).2
    rw [orderedPairs, List.pairwise_append]
    refine ⟨?_, pairwise_key_orderedPairs f xs hxs, ?_⟩
    · rw [List.pairwise_map]
      refine List.Pairwise.imp_of_mem ?_ (List.pairwise_map.mp hxs)
      intro y1 y2 hy1 hy2 hne heq
      rcases pairKey_eq_iff.mp heq with ⟨_, h2⟩ | ⟨h1, _⟩
      · exact hne h2
      · exact hx (h1 ▸ List.mem_map_of_mem f hy2)
    · rintro p hp q hq
      obtain ⟨y, hy, rfl⟩ := List.mem_map.mp hp
      have hq12 := mem_of_mem_orderedPairs hq
      intro heq
      rcases pairKey_eq_iff.mp heq with ⟨h1, _⟩ | ⟨h1, _⟩
      · exact hx (h1 ▸ List.mem_map_of_mem f hq12.1)
      · exact hx (h1 ▸ List.mem_map_of_mem f hq12.2)

/-- A predicate holding on at most one equivalence position of a pairwise
"not both" list is counted at most once. -/
theorem countP_le_one_of_pairwise {α : Type} {p : α → Bool} :
    ∀ {l : List α}, (l.Pairwise fun a b => ¬(p a = true ∧ p b = true)) →
      l.countP p ≤ 1
  | [], _ => by simp
  | x :: xs, h => by
    obtain ⟨hx, hxs⟩ := List.pairwise_cons.mp h
    rw [List.countP_cons]
    by_cases hpx : p x = true
    · have : xs.countP p = 0 :=
        List.countP_eq_zero.mpr fun b hb hpb => hx b hb ⟨hpx, hpb⟩
      simp [this, hpx]
    · simpa [hpx] using countP_le_one_of_pairwise hxs

/-- Evaluating `filteredNodeIds` with the filter off: is the full identity list. -/
theorem filteredNodeIds_false (nodes : List GraphNode) :
    filteredNodeIds nodes false = nodes.map fun n => n.id := rfl

/-- Evaluating `filteredNodeIds` with the filter on: keeps non-mainstream-recommendation
nodes. -/
theorem filteredNodeIds_true (nodes : List GraphNode) :
    filteredNodeIds nodes true =
      (nodes.filter fun n =>
        decide (n.type ≠ NodeType.recommendation) ||
          decide (n.followers_count < 1000000)).map (fun n => n.id) := rfl

/-! ## Claim C7: click-to-select toggling -/

/-- C7: clicking the currently selected node deselects; clicking a
different node selects it; clicking the same node twice from no selection
returns the selection to `none`. -/
theorem claim_click_toggle (sel : Option String) (nodeId : String) :
    (sel = some nodeId → clickSelect sel nodeId = none) ∧
    (sel ≠ some nodeId → clickSelect sel nodeId = some nodeId) ∧
    clickSelect (clickSelect none nodeId) nodeId = none := by
  refine ⟨fun h => ?_, fun h => ?_, ?_⟩
  · simp [clickSelect, h]
  · simp [clickSelect, h]
  · simp [clickSelect]

/-- Witness for C7 at a concrete selection state and node id. -/
theorem claim_click_toggle_witness :
    clickSelect (some "alice") "alice" = none ∧
      clickSelect (some "bob") "alice" = some "alice" ∧
      clickSelect (clickSelect none "alice") "alice" = none :=
  ⟨(claim_click_toggle (some "alice") "alice").1 rfl,
    (claim_click_toggle (some "bob") "alice").2.1 (by simp),
    (claim_click_toggle none "alice").2.2⟩

/-! ## Claim C10: recommendation radii are clamped -/

/-- C10: for every integer `hub_count`, `recNodeRadius` lies in `[8, 20]`
and `recRadius` lies in `[6, 16]`. -/
theorem claim_radii_clamped (hubCount : ℤ) :
    8 ≤ recNodeRadius hubCount ∧ recNodeRadius hubCount ≤ 20 ∧
      6 ≤ recRadius hubCount ∧ recRadius hubCount ≤ 16 := by
  refine ⟨le_max_left .., max_le (by norm_num) (min_le_left ..),
    le_max_left .., max_le (by norm_num) (min_le_left ..)⟩

/-! ## Claim C9: follower-count formatting (corrected)

The similarity-view `formatFollowers` renders thousands with
`toFixed(0)` — zero decimals — not one decimal as claimed; the
bipartite-view variant does use one decimal. -/

/-- C9 counterexample: at `n = 1100` the similarity-view formatter yields
`"1K"`, not the claimed one-decimal `"1.1K"`. -/
theorem claim_format_counterexample :
    formatFollowersSim 1100 = "1K" ∧ claimFormatFollowers 1100 = "1.1K" ∧
      formatFollowersSim 1100 ≠ claimFormatFollowers 1100 := by
  refine ⟨by decide, by decide, by decide⟩

/-- C9 amended: the bipartite formatter matches the claimed format
everywhere; the similarity formatter matches it below 1,000 and at or
above 1,000,000, but renders `1000 ≤ n < 1000000` with zero decimals. -/
theorem claim_format_amended (n : Nat) :
    formatFollowersBip n = claimFormatFollowers n ∧
    (n < 1000 ∨ 1000000 ≤ n → formatFollowersSim n = claimFormatFollowers n) ∧
    (1000 ≤ n → n < 1000000 →
      formatFollowersSim n = toString (roundHalfUp n 1000) ++ "K") := by
  refine ⟨rfl, fun h => ?_, fun h1 h2 => ?_⟩
  · rcases h with h | h
    · have h6 : ¬(1000000 ≤ n) := by omega
      have h3 : ¬(1000 ≤ n) := by omega
      simp [formatFollowersSim, claimFormatFollowers, h6, h3]
    · simp [formatFollowersSim, claimFormatFollowers, h]
  · have h6 : ¬(1000000 ≤ n) := by omega
    simp [formatFollowersSim, h6, h1]

/-- Witness for C9's amended theorem at `n = 1100`. -/
theorem claim_format_amended_witness :
    formatFollowersSim 1100 = toString (roundHalfUp 1100 1000) ++ "K" :=
  (claim_format_amended 1100).2.2 (by decide) (by decide)

/-! ## Claim C5: per-node radius interpolation (corrected)

Tier 0's hub-count span is `[40, Infinity)`, so the interpolation
parameter `(hubCount - 40) / Infinity` is `0` for every hub count: every
tier-0 node gets the tier's MINIMUM radius 16, and a hub count above the
nominal maximum yields 16, not the claimed maximum 22. -/

/-- The three rows of the `RINGS` table, as rewrite rules. -/
theorem RINGS_0 : RINGS 0 = ⟨150, 40, none, 16, 22⟩ := rfl

/-- Row 1 of the `RINGS` table. -/
theorem RINGS_1 : RINGS 1 = ⟨280, 30, some 40, 10, 15⟩ := rfl

/-- Row 2 of the `RINGS` table. -/
theorem RINGS_2 : RINGS 2 = ⟨420, 0, some 30, 6, 10⟩ := rfl

/-- C5 counterexample: `hub_count = 100` in tier 0 yields radius 16 (the
tier minimum), not the tier maximum 22 that the claim's clamped-to-1
interpolation parameter would give. -/
theorem claim_radius_interp_counterexample :
    computeNodeRadius 100 0 = (RINGS 0).nodeRadiusMin ∧
      computeNodeRadius 100 0 ≠ (RINGS 0).nodeRadiusMax := by
  constructor <;> norm_num [computeNodeRadius, RINGS_0]

/-- C5 amended: tiers 1 and 2 interpolate linearly between their radius
bounds with the parameter clamped to `[0, 1]` (tier 1 over hub counts
`[30, 40]`, tier 2 over `[20, 30]`); tier 0's parameter is `0` for every
hub count — its hub-count span is unbounded, `(hubCount - 40)/Infinity`
is zero — so every tier-0 node gets the minimum radius 16. -/
theorem claim_radius_interp_amended (hc : ℚ) :
    computeNodeRadius hc 0 = 16 ∧
    (30 ≤ hc → hc ≤ 40 → computeNodeRadius hc 1 = 10 + (hc - 30) / 10 * 5) ∧
    (hc ≤ 30 → computeNodeRadius hc 1 = 10) ∧
    (40 ≤ hc → computeNodeRadius hc 1 = 15) ∧
    (20 ≤ hc → hc ≤ 30 → computeNodeRadius hc 2 = 6 + (hc - 20) / 10 * 4) ∧
    (hc ≤ 20 → computeNodeRadius hc 2 = 6) ∧
    (30 ≤ hc → computeNodeRadius hc 2 = 10) := by
  refine ⟨?_, fun ha hb => ?_, fun ha => ?_, fun ha => ?_,
    fun ha hb => ?_, fun ha => ?_, fun ha => ?_⟩
  · simp [computeNodeRadius, RINGS_0]
  · have h0 : (0 : ℚ) ≤ (hc - 30) / 10 := div_nonneg (by linarith) (by norm_num)
    have h1 : (hc - 30) / 10 ≤ 1 := by
      rw [div_le_one (by norm_num)]
      linarith
    simp only [computeNodeRadius, RINGS_1]
    norm_num
    rw [max_eq_right h0, min_eq_right h1]
  · have h0 : (hc - 30) / 10 ≤ 0 := div_nonpos_of_nonpos_of_nonneg (by linarith) (by norm_num)
    simp only [computeNodeRadius, RINGS_1]
    norm_num
    rw [max_eq_left h0]
    norm_num
  · have h1 : (1 : ℚ) ≤ (hc - 30) / 10 := by
      rw [le_div_iff₀ (by norm_num)]
      linarith
    have h0 : (0 : ℚ) ≤ (hc - 30) / 10 := by linarith
    simp only [computeNodeRadius, RINGS_1]
    norm_num
    rw [max_eq_right h0, min_eq_left h1]
    norm_num
  · have h0 : (0 : ℚ) ≤ (hc - 20) / 10 := div_nonneg (by linarith) (by norm_num)
    have h1 : (hc - 20) / 10 ≤ 1 := by
      rw [div_le_one (by norm_num)]
      linarith
    simp only [computeNodeRadius, RINGS_2]
    norm_num
    rw [max_eq_right h0, min_eq_right h1]
  · have h0 : (hc - 20) / 10 ≤ 0 := div_nonpos_of_nonpos_of_nonneg (by linarith) (by norm_num)
    simp only [computeNodeRadius, RINGS_2]
    norm_num
    rw [max_eq_left h0]
    norm_num
  · have h1 : (1 : ℚ) ≤ (hc - 20) / 10 := by
      rw [le_div_iff₀ (by norm_num)]
      linarith
    have h0 : (0 : ℚ) ≤ (hc - 20) / 10 := by linarith
    simp only [computeNodeRadius, RINGS_2]
    norm_num
    rw [max_eq_right h0, min_eq_left h1]
    norm_num

/-- Witness for C5's amended theorem at `hc = 35` (tier 1) and `hc = 25`
(tier 2). -/
theorem claim_radius_interp_amended_witness :
    computeNodeRadius 35 1 = 10 + (35 - 30) / 10 * 5 ∧
      computeNodeRadius 25 2 = 6 + (25 - 20) / 10 * 4 :=
  ⟨(claim_radius_interp_amended 35).2.1 (by norm_num) (by norm_num),
    (claim_radius_interp_amended 25).2.2.2.2.1 (by norm_num) (by norm_num)⟩

/-! ## Claim C6: the concentric layout is deterministic -/

/-- C6: two runs of the concentric layout on the same filtered
recommendation list and viewport size produce identical placements — the
layout is a pure function of its inputs (no randomness anywhere in the
computation), and `(cx, cy, r)` are fixed functions of the placement
fields. -/
theorem claim_layout_deterministic (recs1 recs2 : List Recommendation)
    (fm1 fm2 : Bool) (w1 w2 h1 h2 : ℚ) (hr : recs1 = recs2) (hf : fm1 = fm2)
    (hw : w1 = w2) (hh : h1 = h2) :
    concentricLayout recs1 fm1 w1 h1 = concentricLayout recs2 fm2 w2 h2 := by
  subst hr; subst hf; subst hw; subst hh; rfl

/-- Witness for C6 at a concrete input. -/
theorem claim_layout_deterministic_witness :
    concentricLayout [⟨"1", "r1", "R1", "", 100, 10, 45, ["h1"]⟩] true 800 600 =
      concentricLayout [⟨"1", "r1", "R1", "", 100, 10, 45, ["h1"]⟩] true 800 600 :=
  claim_layout_deterministic _ _ true true 800 800 600 600 rfl rfl rfl rfl

/-! ## Claim C2: the mainstream filter (corrected)

The claim holds for `NetworkGraph`'s filter pipeline, but the cited
hub-cluster view keeps only hub-type nodes and, when `filterMainstream`
is set, drops hub nodes with ≥ 1,000,000 followers — hub nodes are NOT
retained regardless of follower count there. -/

/-- A hub node with 2,000,000 followers, used to refute C2. -/
def bigHub : GraphNode :=
  { id := "bighub", name := "Big Hub", type := NodeType.hub,
    followers_count := 2000000, hub_count := 0 }

/-- C2 counterexample: in the hub-cluster view, the hub node `bigHub`
(2,000,000 followers) is removed by `filterMainstream = true`, though the
claim says hub-type nodes are retained regardless of follower count. -/
theorem claim_mainstream_filter_counterexample :
    bigHub.type = NodeType.hub ∧ bigHub ∈ [bigHub] ∧
      bigHub ∉ hubClustersNodes [bigHub] true := by
  refine ⟨rfl, by simp, ?_⟩
  simp [hubClustersNodes, bigHub]

/-- C2 amended: in `NetworkGraph`, `filterMainstream = false` retains all
nodes and `filterMainstream = true` removes exactly the recommendation
nodes with ≥ 1,000,000 followers (center/hub always retained); the
hub-cluster view instead retains only hub-type nodes, and with
`filterMainstream = true` also drops hubs with ≥ 1,000,000 followers. -/
theorem claim_mainstream_filter_amended (nodes : List GraphNode)
    (h : (nodes.map fun n => n.id).Nodup) :
    survivingNodes nodes false = nodes ∧
    (∀ n ∈ nodes,
      (n ∈ survivingNodes nodes true ↔
        n.type ≠ NodeType.recommendation ∨ n.followers_count < 1000000)) ∧
    (∀ (fm : Bool) (n : GraphNode),
      n ∈ hubClustersNodes nodes fm ↔
        n ∈ nodes ∧ n.type = NodeType.hub ∧
          (fm = true → n.followers_count < 1000000)) := by
  refine ⟨?_, fun n hn => ?_, fun fm n => ?_⟩
  · apply List.filter_eq_self.mpr
    intro a ha
    rw [decide_eq_true_eq, filteredNodeIds_false]
    exact List.mem_map_of_mem _ ha
  · unfold survivingNodes
    rw [List.mem_filter, decide_eq_true_eq, filteredNodeIds_true]
    constructor
    · rintro ⟨-, hmem⟩
      obtain ⟨m, hm, hid⟩ := List.mem_map.mp hmem
      obtain ⟨hm1, hm2⟩ := List.mem_filter.mp hm
      have heq : m = n := List.inj_on_of_nodup_map h hm1 hn hid
      subst heq
      simpa using hm2
    · intro hcond
      exact ⟨hn, List.mem_map_of_mem _ (List.mem_filter.mpr ⟨hn, by simpa using hcond⟩)⟩
  · cases fm with
    | false => simp [hubClustersNodes, List.mem_filter, and_assoc]
    | true =>
      simp [hubClustersNodes, List.mem_filter, and_assoc]
      tauto

/-- Witness for C2's amended theorem at a concrete node list. -/
theorem claim_mainstream_filter_amended_witness :
    survivingNodes [bigHub] false = [bigHub] :=
  (claim_mainstream_filter_amended [bigHub] (by simp)).1

/-! ## Claim C8: surviving edges reference surviving nodes only -/

/-- C8: every surviving `NetworkGraph` edge has both endpoints in the
surviving identity set (which only contains identities of present
nodes), and every bipartite edge joins a present hub id to a surviving
recommendation username — dangling references are filtered out (the
functions are total; nothing fails). -/
theorem claim_edges_filtered (nodes : List GraphNode) (edges : List GraphEdge)
    (recs : List Recommendation) (fm : Bool) :
    (∀ e ∈ survivingEdges nodes edges fm,
      e.source ∈ filteredNodeIds nodes fm ∧ e.target ∈ filteredNodeIds nodes fm) ∧
    (∀ u ∈ filteredNodeIds nodes fm, u ∈ nodes.map fun n => n.id) ∧
    (∀ e ∈ bipartiteEdges nodes recs fm,
      e.source ∈ bipHubIds nodes ∧
        e.target ∈ (filteredRecs recs fm).map fun r => r.username) := by
  refine ⟨fun e he => ?_, fun u hu => ?_, fun e he => ?_⟩
  · have hcond := (List.mem_filter.mp he).2
    simpa [Bool.and_eq_true, decide_eq_true_eq] using hcond
  · cases fm with
    | false =>
      rw [filteredNodeIds_false] at hu
      exact hu
    | true =>
      rw [filteredNodeIds_true] at hu
      obtain ⟨m, hm, rfl⟩ := List.mem_map.mp hu
      exact List.mem_map_of_mem _ (List.mem_filter.mp hm).1
  · unfold bipartiteEdges at he
    obtain ⟨r, hr, he2⟩ := List.mem_flatMap.mp he
    obtain ⟨hb, hhb, rfl⟩ := List.mem_map.mp he2
    have hq := (List.mem_filter.mp hhb).2
    rw [Bool.and_eq_true, decide_eq_true_eq, decide_eq_true_eq] at hq
    exact ⟨hq.1, hq.2⟩

/-- A hub node used for C8's witness. -/
def hubNodeW : GraphNode :=
  { id := "h1", name := "H", type := NodeType.hub, followers_count := 10, hub_count := 0 }

/-- Witness for C8 at a concrete dataset. -/
theorem claim_edges_filtered_witness :
    "h1" ∈ List.map (fun n => n.id) [hubNodeW] :=
  (claim_edges_filtered [hubNodeW] [] [] false).2.1 "h1" (by simp [filteredNodeIds, hubNodeW])

/-! ## Claim C1: similarity-edge derivation -/

/-- With unique usernames, the followed-by map lookup returns each
recommendation's own `followed_by` set. -/
theorem lookupFollowedBy_eq {recs : List Recommendation} {A : Recommendation}
    (h : (recs.map fun r => r.username).Nodup) (hA : A ∈ recs) :
    lookupFollowedBy recs A.username = A.followed_by.toFinset := by
  unfold lookupFollowedBy
  have hsome : (recs.reverse.find? fun r => decide (r.username = A.username)).isSome := by
    rw [List.find?_isSome]
    exact ⟨A, List.mem_reverse.mpr hA, by simp⟩
  obtain ⟨B, hB⟩ := Option.isSome_iff_exists.mp hsome
  rw [hB]
  have hBu : B.username = A.username := by simpa using List.find?_some hB
  have hBA : B = A :=
    List.inj_on_of_nodup_map h
      (List.mem_reverse.mp (List.mem_of_find?_eq_some hB)) hA hBu
  rw [hBA]

/-- With unique usernames, the shared count of two present recommendations
is the cardinality of the intersection of their `followed_by` sets. -/
theorem intersectSize_eq {recs : List Recommendation} {A B : Recommendation}
    (h : (recs.map fun r => r.username).Nodup) (hA : A ∈ recs) (hB : B ∈ recs) :
    intersectSize recs A.username B.username =
      (A.followed_by.toFinset ∩ B.followed_by.toFinset).card := by
  unfold intersectSize
  rw [lookupFollowedBy_eq h hA, lookupFollowedBy_eq h hB]

/-- Inversion for the loop body. -/
theorem simEdgeOfPair_eq_some {recs : List Recommendation}
    {p : Recommendation × Recommendation} {e : SimEdge} :
    simEdgeOfPair recs p = some e ↔
      5 ≤ intersectSize recs p.1.username p.2.username ∧
        e = ⟨p.1.username, p.2.username, intersectSize recs p.1.username p.2.username⟩ := by
  unfold simEdgeOfPair
  split_ifs with h5
  · simp [h5, eq_comm]
  · simp [h5]

/-- C1: with unique usernames (the dataset invariant), the similarity
derivation produces edges exactly for the ordered pairs whose
`followed_by` intersection has size ≥ 5, weighted by that size; no edge
exists for a pair with intersection below 5; and each unordered pair of
recommendations yields at most one edge. -/
theorem claim_similarity_edges (recs : List Recommendation)
    (h : (recs.map fun r => r.username).Nodup) :
    (∀ e ∈ simEdges recs, 5 ≤ e.weight ∧
      ∃ A B, [A, B].Sublist recs ∧ e.source = A.username ∧ e.target = B.username ∧
        e.weight = (A.followed_by.toFinset ∩ B.followed_by.toFinset).card) ∧
    (∀ A B, [A, B].Sublist recs →
      5 ≤ (A.followed_by.toFinset ∩ B.followed_by.toFinset).card →
      (⟨A.username, B.username,
        (A.followed_by.toFinset ∩ B.followed_by.toFinset).card⟩ : SimEdge) ∈ simEdges recs) ∧
    (∀ A B, A ∈ recs → B ∈ recs →
      (A.followed_by.toFinset ∩ B.followed_by.toFinset).card < 5 →
      ∀ e ∈ simEdges recs,
        ¬((e.source = A.username ∧ e.target = B.username) ∨
          (e.source = B.username ∧ e.target = A.username))) ∧
    (∀ u v : String,
      (simEdges recs).countP
        (fun e => decide ((e.source = u ∧ e.target = v) ∨
          (e.source = v ∧ e.target = u))) ≤ 1) := by
  have hinv : ∀ e ∈ simEdges recs, ∃ A B, [A, B].Sublist recs ∧
      e = (⟨A.username, B.username,
        (A.followed_by.toFinset ∩ B.followed_by.toFinset).card⟩ : SimEdge) ∧
      5 ≤ (A.followed_by.toFinset ∩ B.followed_by.toFinset).card := by
    intro e he
    obtain ⟨p, hp, hpe⟩ := List.mem_filterMap.mp he
    obtain ⟨h5, rfl⟩ := simEdgeOfPair_eq_some.mp hpe
    have hsub : [p.1, p.2].Sublist recs := mem_orderedPairs.mp (by
      cases p
      exact hp)
    have hA : p.1 ∈ recs := hsub.subset (by simp)
    have hB : p.2 ∈ recs := hsub.subset (by simp)
    rw [intersectSize_eq h hA hB] at h5 ⊢
    exact ⟨p.1, p.2, hsub, rfl, h5⟩
  refine ⟨fun e he => ?_, fun A B hsub h5 => ?_, fun A B hA hB hlt e he hmatch => ?_,
    fun u v => ?_⟩
  · obtain ⟨A, B, hsub, rfl, h5⟩ := hinv e he
    exact ⟨h5, A, B, hsub, rfl, rfl, rfl⟩
  · have hA : A ∈ recs := hsub.subset (by simp)
    have hB : B ∈ recs := hsub.subset (by simp)
    refine List.mem_filterMap.mpr ⟨(A, B), mem_orderedPairs.mpr hsub, ?_⟩
    rw [simEdgeOfPair_eq_some]
    rw [intersectSize_eq h hA hB]
    exact ⟨h5, rfl⟩
  · obtain ⟨C, D, hsub, rfl, h5⟩ := hinv e he
    have hC : C ∈ recs := hsub.subset (by simp)
    have hD : D ∈ recs := hsub.subset (by simp)
    rcases hmatch with ⟨h1, h2⟩ | ⟨h1, h2⟩
    · have hCA : C = A := List.inj_on_of_nodup_map h hC hA h1
      have hDB : D = B := List.inj_on_of_nodup_map h hD hB h2
      subst hCA; subst hDB
      exact absurd h5 (not_le.mpr hlt)
    · have hCB : C = B := List.inj_on_of_nodup_map h hC hB h1
      have hDA : D = A := List.inj_on_of_nodup_map h hD hA h2
      subst hCB; subst hDA
      rw [Finset.inter_comm] at h5
      exact absurd h5 (not_le.mpr hlt)
  · apply countP_le_one_of_pairwise
    have hpw : (simEdges recs).Pairwise
        fun e1 e2 => pairKey e1.source e1.target ≠ pairKey e2.source e2.target := by
      rw [simEdges, List.pairwise_filterMap]
      refine (pairwise_key_orderedPairs (fun r => r.username) recs h).imp ?_
      intro p q hne e1 he1 e2 he2
      obtain ⟨-, rfl⟩ := simEdgeOfPair_eq_some.mp (Option.mem_def.mp he1)
      obtain ⟨-, rfl⟩ := simEdgeOfPair_eq_some.mp (Option.mem_def.mp he2)
      exact hne
    refine hpw.imp ?_
    intro e1 e2 hne hboth
    simp only [decide_eq_true_eq] at hboth
    have k1 : pairKey e1.source e1.target = pairKey u v := by
      rcases hboth.1 with ⟨h1, h2⟩ | ⟨h1, h2⟩
      · rw [h1, h2]
      · rw [h1, h2, pairKey_comm]
    have k2 : pairKey e2.source e2.target = pairKey u v := by
      rcases hboth.2 with ⟨h1, h2⟩ | ⟨h1, h2⟩
      · rw [h1, h2]
      · rw [h1, h2, pairKey_comm]
    exact hne (k1.trans k2.symm)

/-- Witness for C1 at a concrete recommendation list: two
recommendations sharing exactly five hubs produce the expected edge. -/
theorem claim_similarity_edges_witness :
    (⟨"r1", "r2", 5⟩ : SimEdge) ∈
      simEdges
        [⟨"1", "r1", "R1", "", 100, 10, 45, ["h1", "h2", "h3", "h4", "h5"]⟩,
          ⟨"2", "r2", "R2", "", 200, 10, 42, ["h1", "h2", "h3", "h4", "h5", "h6"]⟩] := by
  have hm :=
    (claim_similarity_edges
      [⟨"1", "r1", "R1", "", 100, 10, 45, ["h1", "h2", "h3", "h4", "h5"]⟩,
        ⟨"2", "r2", "R2", "", 200, 10, 42, ["h1", "h2", "h3", "h4", "h5", "h6"]⟩]
      (by decide)).2.1
      ⟨"1", "r1", "R1", "", 100, 10, 45, ["h1", "h2", "h3", "h4", "h5"]⟩
      ⟨"2", "r2", "R2", "", 200, 10, 42, ["h1", "h2", "h3", "h4", "h5", "h6"]⟩
      (by simp) (by decide)
  simpa using hm

/-! ## Claim C3: hub co-follow derivation -/

/-- Idempotence: the key of a key's components is the key itself. -/
theorem pairKey_self (a b : String) :
    pairKey (pairKey a b).1 (pairKey a b).2 = pairKey a b := by
  rcases le_or_lt a b with hab | hab
  · simp [pairKey, hab]
  · have hba : b ≤ a := le_of_lt hab
    have hnab : ¬a ≤ b := not_le.mpr hab
    simp [pairKey, hnab, hba]

/-- Over a duplicate-free `followed_by` list, a distinct hub pair is
counted once when both hubs occur and zero times otherwise. -/
theorem recPairCount_eq {fb : List String} {H1 H2 : String}
    (hnd : fb.Nodup) (hne : H1 ≠ H2) :
    recPairCount fb (pairKey H1 H2) = if H1 ∈ fb ∧ H2 ∈ fb then 1 else 0 := by
  unfold recPairCount
  split_ifs with hmem
  · apply le_antisymm
    · apply countP_le_one_of_pairwise
      refine (pairwise_key_orderedPairs id fb (by simpa using hnd)).imp ?_
      intro p q hnekey hboth
      simp only [decide_eq_true_eq] at hboth
      exact hnekey (hboth.1.trans hboth.2.symm)
    · rcases pair_sublist_of_mem hmem.1 hmem.2 hne with hs | hs
      · exact List.countP_pos_iff.mpr ⟨(H1, H2), mem_orderedPairs.mpr hs, by simp⟩
      · exact List.countP_pos_iff.mpr
          ⟨(H2, H1), mem_orderedPairs.mpr hs, by simp [pairKey_comm H2 H1]⟩
  · rw [List.countP_eq_zero]
    intro p hp hkey
    rw [decide_eq_true_eq] at hkey
    have hpmem := mem_of_mem_orderedPairs hp
    rcases pairKey_eq_iff.mp hkey with ⟨h1, h2⟩ | ⟨h1, h2⟩
    · exact hmem ⟨h1 ▸ hpmem.1, h2 ▸ hpmem.2⟩
    · exact hmem ⟨h2 ▸ hpmem.2, h1 ▸ hpmem.1⟩

/-- The accumulated weight of a distinct hub pair is the number of
recommendations (with duplicate-free `followed_by`) containing both. -/
theorem hubPairWeight_eq {H1 H2 : String} (hne : H1 ≠ H2) :
    ∀ (recs : List Recommendation), (∀ r ∈ recs, r.followed_by.Nodup) →
      hubPairWeight recs (pairKey H1 H2) =
        recs.countP fun r => decide (H1 ∈ r.followed_by ∧ H2 ∈ r.followed_by)
  | [], _ => rfl
  | r :: rs, h => by
    have hr := h r (List.mem_cons_self r rs)
    have ih := hubPairWeight_eq hne rs fun x hx => h x (List.mem_cons_of_mem r hx)
    unfold hubPairWeight at ih ⊢
    rw [List.map_cons, List.sum_cons, List.countP_cons, ih, recPairCount_eq hr hne]
    by_cases hm : H1 ∈ r.followed_by ∧ H2 ∈ r.followed_by
    · simp [hm, Nat.add_comm]
    · simp [hm]

/-- A key with positive accumulated weight occurs in some
recommendation's pair loop. -/
theorem exists_pair_of_weight_pos {recs : List Recommendation} {k : String × String}
    (h : 0 < hubPairWeight recs k) :
    ∃ r ∈ recs, ∃ p ∈ orderedPairs r.followed_by, pairKey p.1 p.2 = k := by
  by_contra hcon
  push_neg at hcon
  have hz : hubPairWeight recs k = 0 := by
    unfold hubPairWeight
    rw [List.sum_eq_zero_iff]
    intro x hx
    obtain ⟨r, hr, rfl⟩ := List.mem_map.mp hx
    unfold recPairCount
    rw [List.countP_eq_zero]
    intro p hp hkey
    exact hcon r hr p hp (of_decide_eq_true hkey)
  omega

/-- Membership in the retained key list. -/
theorem mem_hubEdgeKeys {recs : List Recommendation} {k : String × String} :
    k ∈ hubEdgeKeys recs ↔
      (∃ r ∈ recs, ∃ p ∈ orderedPairs r.followed_by, pairKey p.1 p.2 = k) ∧
        10 ≤ hubPairWeight recs k := by
  unfold hubEdgeKeys
  rw [List.mem_filter, List.mem_dedup, List.mem_flatMap]
  constructor
  · rintro ⟨⟨r, hr, hk⟩, hw⟩
    obtain ⟨p, hp, rfl⟩ := List.mem_map.mp hk
    exact ⟨⟨r, hr, p, hp, rfl⟩, of_decide_eq_true hw⟩
  · rintro ⟨⟨r, hr, p, hp, rfl⟩, hw⟩
    exact ⟨⟨r, hr, List.mem_map_of_mem _ hp⟩, decide_eq_true hw⟩

/-- C3: with duplicate-free `followed_by` lists (the dataset invariant),
the hub co-follow weight of each unordered distinct hub pair equals the
number of recommendations containing both hubs; exactly the pairs with
weight ≥ 10 appear as edges; and the derivation reads only the full
recommendation list, independent of the `filterMainstream` flag. -/
theorem claim_hub_cofollow (recs : List Recommendation)
    (h : ∀ r ∈ recs, r.followed_by.Nodup) :
    (∀ H1 H2 : String, H1 ≠ H2 →
      hubPairWeight recs (pairKey H1 H2) =
        recs.countP fun r => decide (H1 ∈ r.followed_by ∧ H2 ∈ r.followed_by)) ∧
    (∀ e ∈ hubEdges recs, 10 ≤ e.weight ∧ e.source ≠ e.target ∧
      e.weight = recs.countP fun r =>
        decide (e.source ∈ r.followed_by ∧ e.target ∈ r.followed_by)) ∧
    (∀ H1 H2 : String, H1 ≠ H2 →
      (10 ≤ recs.countP (fun r => decide (H1 ∈ r.followed_by ∧ H2 ∈ r.followed_by)) ↔
        ∃ e ∈ hubEdges recs, (e.source, e.target) = pairKey H1 H2 ∧
          e.weight = recs.countP fun r =>
            decide (H1 ∈ r.followed_by ∧ H2 ∈ r.followed_by))) ∧
    (∀ (data : GraphData) (fm1 fm2 : Bool),
      hubEdgesOfView data fm1 = hubEdgesOfView data fm2) := by
  have hpart2 : ∀ e ∈ hubEdges recs, 10 ≤ e.weight ∧ e.source ≠ e.target ∧
      e.weight = recs.countP fun r =>
        decide (e.source ∈ r.followed_by ∧ e.target ∈ r.followed_by) := by
    intro e he
    obtain ⟨k, hk, rfl⟩ := List.mem_map.mp he
    obtain ⟨⟨r, hr, p, hp, hkey⟩, hw⟩ := mem_hubEdgeKeys.mp hk
    have hsub : [p.1, p.2].Sublist r.followed_by :=
      mem_orderedPairs.mp (by cases p; exact hp)
    have hne12 : p.1 ≠ p.2 := by
      have hnd2 : [p.1, p.2].Nodup := (h r hr).sublist hsub
      simpa using (List.nodup_cons.mp hnd2).1
    have hks : pairKey k.1 k.2 = k := by
      have := pairKey_self p.1 p.2
      rwa [hkey] at this
    have hnek : k.1 ≠ k.2 := by
      rcases pairKey_eq_iff.mp (hks.trans hkey.symm) with ⟨h1, h2⟩ | ⟨h1, h2⟩
      · rw [h1, h2]; exact hne12
      · rw [h1, h2]; exact hne12.symm
    refine ⟨hw, hnek, ?_⟩
    show hubPairWeight recs k =
      recs.countP fun r => decide (k.1 ∈ r.followed_by ∧ k.2 ∈ r.followed_by)
    conv_lhs => rw [← hks]
    exact hubPairWeight_eq hnek recs h
  refine ⟨fun H1 H2 hne => hubPairWeight_eq hne recs h, hpart2,
    fun H1 H2 hne => ⟨fun hcount => ?_, fun hedge => ?_⟩, fun data fm1 fm2 => rfl⟩
  · have hwk : hubPairWeight recs (pairKey H1 H2) =
        recs.countP fun r => decide (H1 ∈ r.followed_by ∧ H2 ∈ r.followed_by) :=
      hubPairWeight_eq hne recs h
    have hw10 : 10 ≤ hubPairWeight recs (pairKey H1 H2) := hwk ▸ hcount
    have hocc := exists_pair_of_weight_pos (lt_of_lt_of_le (by norm_num) hw10)
    have hk : pairKey H1 H2 ∈ hubEdgeKeys recs := mem_hubEdgeKeys.mpr ⟨hocc, hw10⟩
    refine ⟨⟨(pairKey H1 H2).1, (pairKey H1 H2).2, hubPairWeight recs (pairKey H1 H2)⟩,
      List.mem_map_of_mem _ hk, ?_, ?_⟩
    · exact Prod.mk.eta
    · exact hwk
  · obtain ⟨e, he, -, hwt⟩ := hedge
    have := (hpart2 e he).1
    rw [hwt] at this
    exact this

/-- Ten identical co-followers, used to witness C3's edge production. -/
def cofollowRecsW : List Recommendation :=
  (List.range 10).map fun i =>
    ⟨toString i, "r" ++ toString i, "R", "", 0, 0, 2, ["h1", "h2"]⟩

/-- Witness for C3: ten recommendations jointly followed by hubs h1 and
h2 produce the co-follow edge with weight 10. -/
theorem claim_hub_cofollow_witness :
    ∃ e ∈ hubEdges cofollowRecsW, (e.source, e.target) = pairKey "h1" "h2" ∧
      e.weight = cofollowRecsW.countP fun r =>
        decide ("h1" ∈ r.followed_by ∧ "h2" ∈ r.followed_by) :=
  ((claim_hub_cofollow cofollowRecsW (by decide)).2.2.1 "h1" "h2" (by decide)).mp
    (by decide)

/-! ## Claim C4: concentric-tier bucketing, sorting and spacing -/

/-- The bucketing loop partitions the list into the three threshold
filters, preserving order. -/
theorem bucketTiers_eq (l : List Recommendation) :
    bucketTiers l =
      (l.filter fun r => decide (40 ≤ r.hub_count),
        l.filter fun r => decide (30 ≤ r.hub_count ∧ r.hub_count < 40),
        l.filter fun r => decide (r.hub_count < 30)) := by
  induction l with
  | nil => rfl
  | cons r rs ih =>
    by_cases h40 : 40 ≤ r.hub_count
    · have h1 : ¬(30 ≤ r.hub_count ∧ r.hub_count < 40) := by omega
      have h2 : ¬r.hub_count < 30 := by omega
      simp [bucketTiers, ih, h40, h1, h2, List.filter_cons]
    · by_cases h30 : 30 ≤ r.hub_count
      · have h1 : 30 ≤ r.hub_count ∧ r.hub_count < 40 := by omega
        have h2 : ¬r.hub_count < 30 := by omega
        simp [bucketTiers, ih, h40, h1, h2, List.filter_cons]
      · have h2 : r.hub_count < 30 := by omega
        simp [bucketTiers, ih, h40, h30, h2, List.filter_cons]

/-- Filtering by an exact hub count commutes with `orderedInsert` for the
descending comparator: an inserted element with the key goes to the front
of the key's class, elements with other keys are untouched. -/
theorem filter_orderedInsert_key (a : Recommendation) (l : List Recommendation) (v : Nat) :
    (List.orderedInsert (fun x y => y.hub_count ≤ x.hub_count) a l).filter
        (fun x => decide (x.hub_count = v)) =
      if a.hub_count = v then
        a :: l.filter (fun x => decide (x.hub_count = v))
      else l.filter fun x => decide (x.hub_count = v) := by
  rw [List.orderedInsert_eq_take_drop, List.filter_append, List.filter_cons]
  by_cases hv : a.hub_count = v
  · have htw : (l.takeWhile fun b => decide ¬(b.hub_count ≤ a.hub_count)).filter
        (fun x => decide (x.hub_count = v)) = [] := by
      rw [List.filter_eq_nil_iff]
      intro b hb
      have hgt := List.mem_takeWhile_imp hb
      simp only [decide_eq_true_eq] at hgt ⊢
      omega
    rw [if_pos (by simpa using hv), htw]
    conv_rhs =>
      rw [if_pos hv,
        ← List.takeWhile_append_dropWhile
          (fun b => decide ¬(b.hub_count ≤ a.hub_count)) l,
        List.filter_append, htw]
    simp
  · rw [if_neg (by simpa using hv)]
    conv_rhs =>
      rw [if_neg hv,
        ← List.takeWhile_append_dropWhile
          (fun b => decide ¬(b.hub_count ≤ a.hub_count)) l,
        List.filter_append]

/-- The in-tier sort is stable: for every hub-count value, the sublist of
elements with that value is unchanged — ties keep their input order. -/
theorem sortTier_stable :
    ∀ (tier : List Recommendation) (v : Nat),
      (sortTier tier).filter (fun x => decide (x.hub_count = v)) =
        tier.filter fun x => decide (x.hub_count = v)
  | [], _ => rfl
  | r :: rs, v => by
    unfold sortTier
    rw [List.insertionSort, filter_orderedInsert_key]
    have ih := sortTier_stable rs v
    unfold sortTier at ih
    rw [ih, List.filter_cons]
    by_cases hv : r.hub_count = v <;> simp [hv]

/-- The in-tier sort is descending in `hub_count`. -/
theorem sortTier_sorted (tier : List Recommendation) :
    (sortTier tier).Sorted fun a b => b.hub_count ≤ a.hub_count := by
  haveI : IsTotal Recommendation fun a b => b.hub_count ≤ a.hub_count :=
    ⟨fun a b => (le_total a.hub_count b.hub_count).symm⟩
  haveI : IsTrans Recommendation fun a b => b.hub_count ≤ a.hub_count :=
    ⟨fun _ _ _ hab hbc => le_trans hbc hab⟩
  exact List.sorted_insertionSort _ tier

/-- The in-tier sort is a permutation of the tier. -/
theorem sortTier_perm (tier : List Recommendation) : (sortTier tier).Perm tier :=
  List.perm_insertionSort _ tier

/-- Elementwise description of `placeSorted`: entry `j` wraps sorted entry
`j` with the angle of index `i + j`. -/
theorem placeSorted_getElem (k : Fin 3) (cX cY : ℚ) (n : Nat) :
    ∀ (l : List Recommendation) (i j : Nat),
      (placeSorted k cX cY n i l)[j]? =
        l[j]?.map fun r =>
          { node := r, ringIndex := k, angleInPi := nodeAngleInPi n (i + j),
            ringRadius := (RINGS k).radius, centerX := cX, centerY := cY,
            r := computeNodeRadius (r.hub_count : ℚ) k }
  | [], i, j => by simp [placeSorted]
  | r :: rest, i, 0 => by simp [placeSorted]
  | r :: rest, i, j + 1 => by
    rw [placeSorted]
    rw [List.getElem?_cons_succ, List.getElem?_cons_succ,
      placeSorted_getElem k cX cY n rest (i + 1) j]
    have hidx : i + 1 + j = i + (j + 1) := by omega
    rw [hidx]

/-- C4: in the concentric layout, the bucketing partitions the filtered
recommendations into the three hub-count tiers exhaustively and
exclusively; each tier is sorted descending by hub count, stably (equal
hub counts keep input order); tier entry `j` of `n` is placed on its
tier's ring at angle `2π·j/n − π/2` (stored in units of π), so the angles
start at −π/2 (the top), increase — clockwise in SVG coordinates — in
equal steps of `2π/n`, and a single-member tier sits at the top. -/
theorem claim_concentric_tiers (recs : List Recommendation) (fm : Bool) (w h : ℚ) :
    (bucketTiers (filteredRecs recs fm) =
      ((filteredRecs recs fm).filter fun r => decide (40 ≤ r.hub_count),
        (filteredRecs recs fm).filter fun r =>
          decide (30 ≤ r.hub_count ∧ r.hub_count < 40),
        (filteredRecs recs fm).filter fun r => decide (r.hub_count < 30))) ∧
    (∀ r ∈ filteredRecs recs fm,
      (r ∈ (bucketTiers (filteredRecs recs fm)).1 ∧
          r ∉ (bucketTiers (filteredRecs recs fm)).2.1 ∧
          r ∉ (bucketTiers (filteredRecs recs fm)).2.2) ∨
        (r ∉ (bucketTiers (filteredRecs recs fm)).1 ∧
          r ∈ (bucketTiers (filteredRecs recs fm)).2.1 ∧
          r ∉ (bucketTiers (filteredRecs recs fm)).2.2) ∨
        (r ∉ (bucketTiers (filteredRecs recs fm)).1 ∧
          r ∉ (bucketTiers (filteredRecs recs fm)).2.1 ∧
          r ∈ (bucketTiers (filteredRecs recs fm)).2.2)) ∧
    (∀ tier : List Recommendation,
      ((sortTier tier).Sorted fun a b => b.hub_count ≤ a.hub_count) ∧
        (sortTier tier).Perm tier ∧
        ∀ v : Nat, (sortTier tier).filter (fun x => decide (x.hub_count = v)) =
          tier.filter fun x => decide (x.hub_count = v)) ∧
    (concentricLayout recs fm w h =
      placeTier 0 (w / 2) (h / 2) (bucketTiers (filteredRecs recs fm)).1 ++
        placeTier 1 (w / 2) (h / 2) (bucketTiers (filteredRecs recs fm)).2.1 ++
          placeTier 2 (w / 2) (h / 2) (bucketTiers (filteredRecs recs fm)).2.2) ∧
    (∀ (k : Fin 3) (tier : List Recommendation) (j : Nat),
      (placeTier k (w / 2) (h / 2) tier)[j]? =
        (sortTier tier)[j]?.map fun r =>
          { node := r, ringIndex := k,
            angleInPi := nodeAngleInPi (sortTier tier).length j,
            ringRadius := (RINGS k).radius, centerX := w / 2, centerY := h / 2,
            r := computeNodeRadius (r.hub_count : ℚ) k }) ∧
    (∀ n : Nat, 1 ≤ n → nodeAngleInPi n 0 = -(1 / 2 : ℚ)) ∧
    (∀ n i : Nat, i + 1 < n →
      nodeAngleInPi n (i + 1) - nodeAngleInPi n i = 2 / (n : ℚ)) ∧
    (∀ n i j : Nat, i < j → j < n → nodeAngleInPi n i < nodeAngleInPi n j) ∧
    nodeAngleInPi 1 0 = -(1 / 2 : ℚ) := by
  refine ⟨bucketTiers_eq _, fun r hr => ?_, fun tier =>
      ⟨sortTier_sorted tier, sortTier_perm tier, fun v => sortTier_stable tier v⟩,
    rfl, fun k tier j => ?_, fun n hn => ?_, fun n i hi => ?_,
    fun n i j hij hjn => ?_, rfl⟩
  · rw [bucketTiers_eq]
    simp only [List.mem_filter, decide_eq_true_eq]
    rcases Nat.lt_or_ge r.hub_count 30 with h30 | h30
    · exact Or.inr (Or.inr ⟨by omega, by omega, hr, h30⟩)
    · rcases Nat.lt_or_ge r.hub_count 40 with h40 | h40
      · exact Or.inr (Or.inl ⟨by omega, ⟨hr, by omega⟩, by omega⟩)
      · exact Or.inl ⟨⟨hr, h40⟩, by omega, by omega⟩
  · unfold placeTier
    rw [placeSorted_getElem]
    simp
  · unfold nodeAngleInPi
    by_cases h1 : n = 1
    · rw [if_pos h1]
    · rw [if_neg h1]
      norm_num
  · have h1 : n ≠ 1 := by omega
    have hn0 : (n : ℚ) ≠ 0 := by
      have hp : n ≠ 0 := by omega
      exact_mod_cast hp
    unfold nodeAngleInPi
    rw [if_neg h1, if_neg h1]
    push_cast
    field_simp
    ring
  · have h1 : n ≠ 1 := by omega
    have hn0 : (0 : ℚ) < n := by
      have hp : 0 < n := by omega
      exact_mod_cast hp
    have hij2 : (i : ℚ) < j := by exact_mod_cast hij
    have hpos : (0 : ℚ) < (2 * (j : ℚ) - 2 * i) / n := div_pos (by linarith) hn0
    rw [sub_div] at hpos
    unfold nodeAngleInPi
    rw [if_neg h1, if_neg h1]
    linarith

/-- Witness for C4: with four nodes on a tier, consecutive placements are
2π/4 apart (angles in units of π). -/
theorem claim_concentric_tiers_witness :
    nodeAngleInPi 4 (1 + 1) - nodeAngleInPi 4 1 = 2 / (4 : ℚ) :=
  (claim_concentric_tiers [] false 800 600).2.2.2.2.2.2.1 4 1 (by omega)

end OutlierScout
